import Mathlib

/-!
Shallow embedding of the import/ingestion pipeline of a file-backed
note-taking application, together with proofs of the behavioural
claims made by its specification.

Strings are modelled as lists of characters, byte buffers as lists of
natural numbers.  Effectful code (the external model call, the file
system, the concurrency scheduler) is modelled by explicit state
passing and oracle parameters.
-/

namespace Forum

/-! ## Filename helpers (getExtension / getBaseName from the route source) -/

/-- Index of the last occurrence of a dot in a string, mirroring
the JavaScript expression filename.lastIndexOf "."; none when absent. -/
def lastIndexOfDot : List Char → Option Nat
  | [] => none
  | c :: rest =>
    match lastIndexOfDot rest with
    | some i => some (i + 1)
    | none => if c = '.' then some 0 else none

/-- ASCII lowering of one character, as applied by toLowerCase on the
ASCII filename extensions this code compares against. -/
def jsToLower (c : Char) : Char := c.toLower

/-- Extension of a filename including the dot, lower-cased; empty when the
name has no dot.  Mirrors getExtension in the source. -/
def getExtension (s : List Char) : List Char :=
  match lastIndexOfDot s with
  | some d => (s.drop d).map jsToLower
  | none => []

/-- Filename with its extension removed.  Mirrors getBaseName in the source. -/
def getBaseName (s : List Char) : List Char :=
  match lastIndexOfDot s with
  | some d => s.take d
  | none => s

/-- Image extension set of the import route. -/
def IMAGE_EXTENSIONS : List (List Char) :=
  [".png".toList, ".jpg".toList, ".jpeg".toList, ".gif".toList, ".webp".toList]

/-- HTML extension set of the import route. -/
def HTML_EXTENSIONS : List (List Char) :=
  [".html".toList, ".htm".toList]

/-! ## Binary sniffer (detectMimeType) -/

/-- Byte of a buffer at an index; the source only indexes after a length
check, so the default value is never observed there. -/
def byteAt (b : List Nat) (i : Nat) : Nat := b.getD i 0

/-- Image MIME type detected from the magic bytes of a buffer.
Direct translation of detectMimeType: any buffer shorter than four bytes
yields none, then the PNG, JPEG, GIF and WEBP signatures are tried in
order. -/
def detectMimeType (buffer : List Nat) : Option (List Char) :=
  if buffer.length < 4 then none
  else if byteAt buffer 0 = 0x89 ∧ byteAt buffer 1 = 0x50 ∧
          byteAt buffer 2 = 0x4e ∧ byteAt buffer 3 = 0x47 then
    some "image/png".toList
  else if byteAt buffer 0 = 0xff ∧ byteAt buffer 1 = 0xd8 ∧
          byteAt buffer 2 = 0xff then
    some "image/jpeg".toList
  else if byteAt buffer 0 = 0x47 ∧ byteAt buffer 1 = 0x49 ∧
          byteAt buffer 2 = 0x46 ∧ byteAt buffer 3 = 0x38 then
    some "image/gif".toList
  else if 12 ≤ buffer.length ∧
          byteAt buffer 0 = 0x52 ∧ byteAt buffer 1 = 0x49 ∧
          byteAt buffer 2 = 0x46 ∧ byteAt buffer 3 = 0x46 ∧
          byteAt buffer 8 = 0x57 ∧ byteAt buffer 9 = 0x45 ∧
          byteAt buffer 10 = 0x42 ∧ byteAt buffer 11 = 0x50 then
    some "image/webp".toList
  else none

/-! ## CSV parser (parseCSV from src/lib/csv.ts) -/

/-- Main loop of parseCSV: one step per consumed character, carrying the
in-quotes flag, the field and row accumulators and the finished rows,
exactly as the imperative loop of the source does. -/
def parseCSVLoop : List Char → Bool → List Char → List (List Char) →
    List (List (List Char)) → List (List (List Char))
  | [], _, field, row, rows =>
    if field ≠ [] ∨ row ≠ [] then rows ++ [row ++ [field]] else rows
  | '"' :: '"' :: rest2, true, field, row, rows =>
    parseCSVLoop rest2 true (field ++ ['"']) row rows
  | '"' :: rest, true, field, row, rows =>
    parseCSVLoop rest false field row rows
  | ch :: rest, true, field, row, rows =>
    parseCSVLoop rest true (field ++ [ch]) row rows
  | '"' :: rest, false, field, row, rows =>
    parseCSVLoop rest true field row rows
  | ',' :: rest, false, field, row, rows =>
    parseCSVLoop rest false [] (row ++ [field]) rows
  | '\r' :: '\n' :: rest2, false, field, row, rows =>
    parseCSVLoop rest2 false [] [] (rows ++ [row ++ [field]])
  | '\r' :: rest, false, field, row, rows =>
    parseCSVLoop rest false [] [] (rows ++ [row ++ [field]])
  | '\n' :: rest, false, field, row, rows =>
    parseCSVLoop rest false [] [] (rows ++ [row ++ [field]])
  | ch :: rest, false, field, row, rows =>
    parseCSVLoop rest false (field ++ [ch]) row rows

/-- Parse CSV text into rows of fields; translation of parseCSV. -/
def parseCSV (text : List Char) : List (List (List Char)) :=
  parseCSVLoop text false [] [] []

/-! ## File grouper (groupFiles) -/

/-- Uploaded file; only the name takes part in grouping. -/
structure UFile where
  name : List Char
deriving DecidableEq, Repr

/-- Import unit produced by the grouper. -/
structure FileGroup where
  name : List Char
  slug : List Char
  htmlFile : Option UFile
  imageFiles : List UFile
deriving DecidableEq, Repr

instance : Inhabited FileGroup := ⟨⟨[], [], none, []⟩⟩

/-- Whitespace class of the regular expression backslash-s of ECMAScript,
used by the slug derivation. -/
def isJsSpace (c : Char) : Bool :=
  c = '\t' || c = '\n' || c.val = 11 || c.val = 12 || c = '\r' || c = ' ' ||
  c.val = 0xa0 || c.val = 0x1680 ||
  (decide (0x2000 ≤ c.val) && decide (c.val ≤ 0x200a)) ||
  c.val = 0x2028 || c.val = 0x2029 || c.val = 0x202f || c.val = 0x205f ||
  c.val = 0x3000 || c.val = 0xfeff

/-- Body of the whitespace-run replacement: the flag records whether the
previous character belonged to a whitespace run, so that a run emits one
hyphen at its first character only. -/
def slugifyAux : List Char → Bool → List Char
  | [], _ => []
  | c :: rest, inRun =>
    if isJsSpace c then
      if inRun then slugifyAux rest true else '-' :: slugifyAux rest true
    else c :: slugifyAux rest false

/-- Replace every maximal run of whitespace by a single hyphen, the
semantics of replacing the global regex backslash-s-plus with a hyphen. -/
def slugify (s : List Char) : List Char := slugifyAux s false

/-- Does an image file belong to the group of the given document base name
(the condition of the inner loop of groupFiles). -/
def imgMatches (baseName : List Char) (img : UFile) : Bool :=
  let imgBase := getBaseName img.name
  imgBase = baseName || (baseName ++ ['-']).isPrefixOf imgBase ||
    (baseName ++ ['_']).isPrefixOf imgBase

/-- Files classified as primary HTML documents by the first loop of
groupFiles, in their original order. -/
def htmlFilesOf (files : List UFile) : List UFile :=
  files.filter (fun f => HTML_EXTENSIONS.contains (getExtension f.name))

/-- Files classified as image assets by the first loop of groupFiles (the
else-if branch), in their original order. -/
def imageFilesOf (files : List UFile) : List UFile :=
  files.filter (fun f =>
    ¬ HTML_EXTENSIONS.contains (getExtension f.name) ∧
    IMAGE_EXTENSIONS.contains (getExtension f.name))

/-- Group built for one HTML document: base name, slug, the document, and
every image whose base name matches. -/
def mkGroup (imageFiles : List UFile) (html : UFile) : FileGroup :=
  let baseName := getBaseName html.name
  { name := baseName, slug := slugify baseName, htmlFile := some html,
    imageFiles := imageFiles.filter (imgMatches baseName) }

/-- Classify the uploaded files, build one group per HTML file in order,
attach every image whose base name is in the prefix family of the
document base name, and report the names of images claimed by no group.
Functional rendering of groupFiles: the imperative matchedImages name set
becomes membership in the list of all matched image names. -/
def groupFiles (files : List UFile) : List FileGroup × List (List Char) :=
  let htmlFiles := htmlFilesOf files
  let imageFiles := imageFilesOf files
  let groups := htmlFiles.map (mkGroup imageFiles)
  let matchedNames := (groups.map FileGroup.imageFiles).flatten.map UFile.name
  let unmatched := (imageFiles.filter
    (fun img => ¬ matchedNames.contains img.name)).map UFile.name
  (groups, unmatched)

/-! ## Retry controller (callClaudeWithRetry) -/

/-- Maximum number of retries of the import route. -/
def MAX_RETRIES : Nat := 3

/-- Base backoff delay of the import route, in milliseconds. -/
def RETRY_BASE_DELAY_MS : Nat := 15000

/-- Concurrency bound of the import route. -/
def CONCURRENCY : Nat := 3

/-- Error thrown by the external call, carrying the message and the
optional numeric status the rate-limit test inspects. -/
structure JsError where
  message : List Char
  status : Option Nat
deriving DecidableEq, Repr

/-- Rate-limit recognition of the source: the message contains the token
rate_limit or 429, or the status field is 429. -/
def isRateLimitErr (e : JsError) : Bool :=
  decide (List.IsInfix "rate_limit".toList e.message) ||
  decide (List.IsInfix "429".toList e.message) ||
  (e.status == some 429)

instance {E A : Type} [DecidableEq E] [DecidableEq A] : DecidableEq (Except E A) :=
  fun a b =>
    match a, b with
    | .ok x, .ok y =>
      if h : x = y then .isTrue (by rw [h]) else .isFalse (by simp [h])
    | .error x, .error y =>
      if h : x = y then .isTrue (by rw [h]) else .isFalse (by simp [h])
    | .ok _, .error _ => .isFalse (by simp)
    | .error _, .ok _ => .isFalse (by simp)

/-- Observable outcome of the retry loop: the returned value or the
propagated error, the number of attempts started, and the sequence of
backoff delays that were awaited. -/
structure RetryTrace (R : Type) where
  result : Except JsError R
  attemptsMade : Nat
  delays : List Nat
deriving Repr

instance {R : Type} [DecidableEq R] : DecidableEq (RetryTrace R) :=
  fun a b =>
    if h : a.result = b.result ∧ a.attemptsMade = b.attemptsMade ∧
        a.delays = b.delays then
      .isTrue (by cases a; cases b; simp_all)
    else .isFalse (by cases a; cases b; simp_all)

/-- Body of the retry loop of callClaudeWithRetry.  The outcome of attempt
number k (counted from zero) is supplied by the oracle; a recognized
rate-limit failure below the retry ceiling waits base times (attempt + 1)
milliseconds and retries, any other failure propagates at once.  The
first argument counts the loop iterations still permitted by the for
header; its exhaustion is the trailing max-retries throw of the source,
which is unreachable from the real entry point. -/
def retryLoop (outcomes : Nat → Except JsError R) :
    Nat → Nat → List Nat → RetryTrace R
  | 0, attempt, delays =>
    ⟨.error ⟨"Max retries exceeded".toList, none⟩, attempt, delays⟩
  | fuel + 1, attempt, delays =>
    match outcomes attempt with
    | .ok r => ⟨.ok r, attempt + 1, delays⟩
    | .error e =>
      if isRateLimitErr e ∧ attempt < MAX_RETRIES then
        retryLoop outcomes fuel (attempt + 1)
          (delays ++ [RETRY_BASE_DELAY_MS * (attempt + 1)])
      else ⟨.error e, attempt + 1, delays⟩

/-- Translation of callClaudeWithRetry: the for loop admits attempts zero
through MAX_RETRIES, starting at attempt zero. -/
def callClaudeWithRetry (outcomes : Nat → Except JsError R) : RetryTrace R :=
  retryLoop outcomes (MAX_RETRIES + 1) 0 []

/-! ## Conversion worker (processGroup) -/

/-- Typed content block of a model response. -/
inductive ContentBlock where
  | text (s : List Char)
  | image
  | toolUse
deriving DecidableEq, Repr

/-- Whether a block is text-typed. -/
def ContentBlock.isText : ContentBlock → Bool
  | .text _ => true
  | _ => false

/-- Model response as a sequence of content blocks. -/
structure ClaudeMessage where
  content : List ContentBlock
deriving DecidableEq, Repr

/-- Markdown extraction of processGroup: the source reads the type field
of content index zero, so an empty sequence throws (reading a property of
undefined), modelled by none; otherwise the result is the text of block
zero when it is text-typed and the empty string when it is not. -/
def extractMarkdown : List ContentBlock → Option (List Char)
  | [] => none
  | .text s :: _ => some s
  | _ :: _ => some []

/-- Per-unit oracle for the effectful parts of processGroup: the outcome
of each external call attempt and the outcome of the storage writes. -/
structure UnitEnv where
  callOutcomes : Nat → Except JsError ClaudeMessage
  saveOutcome : Except (List Char) Unit

/-- Outcome report for one unit. -/
structure ImportResult where
  name : List Char
  slug : List Char
  success : Bool
  error : Option (List Char)
deriving DecidableEq, Repr

instance : Inhabited ImportResult := ⟨⟨[], [], false, none⟩⟩

/-- Translation of processGroup: a unit without an HTML file returns an
immediate failure result; otherwise the external call runs under the
retry controller, the markdown is extracted from the response, the page
and its images are written, and a success result carrying the unit name
and slug is returned.  A thrown error is an error value carrying its
message. -/
def processGroup (group : FileGroup) (env : UnitEnv) :
    Except (List Char) ImportResult :=
  match group.htmlFile with
  | none => .ok ⟨group.name, group.slug, false, some "No HTML file".toList⟩
  | some _ =>
    match (callClaudeWithRetry env.callOutcomes).result with
    | .error e => .error e.message
    | .ok response =>
      match extractMarkdown response.content with
      | none => .error "TypeError".toList
      | some _markdown =>
        match env.saveOutcome with
        | .error msg => .error msg
        | .ok _ => .ok ⟨group.name, group.slug, true, none⟩

/-- Task body built by the orchestrator around one unit: any error
escaping processGroup becomes a failure result for that unit. -/
def runTask (group : FileGroup) (env : UnitEnv) : ImportResult :=
  match processGroup group env with
  | .ok r => r
  | .error msg => ⟨group.name, group.slug, false, some msg⟩

/-! ## Concurrency scheduler (runWithConcurrency)

Each worker repeatedly claims the shared next index and then writes the
value of the claimed task into the result slot of that index.  A step of
one worker is either a claim or a write; an external schedule chooses
which worker moves, so any interleaving of the workers is covered. -/

/-- Scheduler state: the shared cursor, the result slots, the index each
worker has claimed but not yet finished, and how many times each task has
been started. -/
structure SchedState (T : Type) where
  nextIndex : Nat
  results : List (Option T)
  pending : List (Option Nat)
  execCount : List Nat
deriving Repr

/-- Initial scheduler state: no results, min concurrency taskCount idle
workers, as in the source construction of the worker array. -/
def initState (T : Type) (taskCount concurrency : Nat) : SchedState T :=
  { nextIndex := 0,
    results := List.replicate taskCount none,
    pending := List.replicate (min concurrency taskCount) none,
    execCount := List.replicate taskCount 0 }

/-- One step of worker w: finish the claimed task and record its value at
the claimed index, or claim the next index while any remains. -/
def schedStep (taskVal : Nat → T) (N : Nat) (s : SchedState T) (w : Nat) :
    SchedState T :=
  if w < s.pending.length then
    match s.pending.getD w none with
    | some i =>
      { s with results := s.results.set i (some (taskVal i)),
               pending := s.pending.set w none }
    | none =>
      if s.nextIndex < N then
        { s with nextIndex := s.nextIndex + 1,
                 pending := s.pending.set w (some s.nextIndex),
                 execCount := s.execCount.set s.nextIndex
                   (s.execCount.getD s.nextIndex 0 + 1) }
      else s
  else s

/-- Run the scheduler under a schedule listing which worker moves next. -/
def schedRun (taskVal : Nat → T) (N : Nat) (schedule : List Nat)
    (s : SchedState T) : SchedState T :=
  schedule.foldl (schedStep taskVal N) s

/-- A state where every worker has returned: the cursor is exhausted and
no claim is outstanding; this is the state in which the joined worker
promises of the source have all resolved. -/
def SchedTerminal (N : Nat) (s : SchedState T) : Prop :=
  s.nextIndex = N ∧ ∀ p ∈ s.pending, p = none

instance (N : Nat) (s : SchedState T) : Decidable (SchedTerminal N s) :=
  inferInstanceAs (Decidable (_ ∧ _))

/-- Inductive invariant of the scheduler: the slot lists keep their
lengths, the cursor never passes the task count, outstanding claims are
below the cursor and held by at most one worker, each task below the
cursor has been started exactly once and the others not at all, and every
task below the cursor that no worker still holds has its value recorded
at its own index. -/
def SchedInv (taskVal : Nat → T) (N W : Nat) (s : SchedState T) : Prop :=
  s.results.length = N ∧ s.pending.length = W ∧ s.execCount.length = N ∧
  s.nextIndex ≤ N ∧
  (∀ w i, s.pending.getD w none = some i → i < s.nextIndex) ∧
  (∀ w1 w2 i, s.pending.getD w1 none = some i →
      s.pending.getD w2 none = some i → w1 = w2) ∧
  (∀ i, i < N → s.execCount.getD i 0 = if i < s.nextIndex then 1 else 0) ∧
  (∀ i, i < N → i < s.nextIndex → (∀ w, s.pending.getD w none ≠ some i) →
      s.results.getD i none = some (taskVal i))

/-! ## Import orchestrator (POST of the import route) -/

/-- Response of the import route: an error body with a status, or the
report of per-unit results plus the unmatched image names. -/
inductive PostResponse where
  | errorResp (msg : List Char) (status : Nat)
  | report (results : List (Option ImportResult)) (unmatched : List (List Char))
deriving DecidableEq, Repr

/-- Task built by the orchestrator for unit index i: the guarded body of
the task closures it maps over the groups. -/
def importTasks (files : List UFile) (envs : Nat → UnitEnv) : Nat → ImportResult :=
  fun i => runTask ((groupFiles files).1.getD i default) (envs i)

/-- Scheduler state reached by running all unit tasks of an upload under
a given schedule, from the initial state at the fixed concurrency. -/
def importSchedState (files : List UFile) (envs : Nat → UnitEnv)
    (schedule : List Nat) : SchedState ImportResult :=
  schedRun (importTasks files envs) (groupFiles files).1.length schedule
    (initState ImportResult (groupFiles files).1.length CONCURRENCY)

/-- Translation of the POST handler of the import route: reject an empty
upload with status 400, reject a missing API key with status 500,
otherwise group the files, build one guarded task per group and run them
through the scheduler at the fixed concurrency bound. -/
def POST (files : List UFile) (apiKey : Option (List Char))
    (envs : Nat → UnitEnv) (schedule : List Nat) : PostResponse :=
  if files.length = 0 then .errorResp "No files provided".toList 400
  else
    match apiKey with
    | none => .errorResp "ANTHROPIC_API_KEY not configured".toList 500
    | some _ =>
      .report (importSchedState files envs schedule).results (groupFiles files).2

/-! ## Page storage (createPage of src/lib/notes.ts)

Paths are lists of path components relative to the notes directory.  The
file system is a map from directory paths to existence and from file
paths to contents. -/

/-- File-system state. -/
structure FS where
  dirs : List (List Char) → Bool
  files : List (List Char) → Option (List Char)

/-- Existence test of fs.existsSync: a directory or a file at the path. -/
def existsSync (fs : FS) (p : List (List Char)) : Bool :=
  fs.dirs p || (fs.files p).isSome

/-- Recursive directory creation: the target and all its ancestors come
to exist. -/
def mkdirRecursive (fs : FS) (target : List (List Char)) : FS :=
  { fs with dirs := fun p => fs.dirs p || p.isPrefixOf target }

/-- Whole-file write of fs.writeFileSync. -/
def writeFileSync (fs : FS) (p : List (List Char)) (content : List Char) : FS :=
  { fs with files := fun q => if q = p then some content else fs.files q }

/-- Name of the content file of a page. -/
def contentFileName : List Char := "content.md".toList

/-- Translation of createPage: ensure the page directory exists, then
ensure the content file exists, writing it empty only when absent. -/
def createPage (fs : FS) (slug : List (List Char)) : FS :=
  let fs1 := if existsSync fs slug then fs else mkdirRecursive fs slug
  let contentPath := slug ++ [contentFileName]
  if existsSync fs1 contentPath then fs1 else writeFileSync fs1 contentPath []

/-! ## Image serving route (GET of the notes images route)

Paths are strings; resolution of an absolute path collapses empty, dot
and dot-dot components with a stack, the semantics of the path module of
the runtime on absolute inputs. -/

/-- Stack-based normalization of path components. -/
def normStack : List (List Char) → List (List Char) → List (List Char)
  | stack, [] => stack
  | stack, comp :: rest =>
    if comp = [] ∨ comp = ".".toList then normStack stack rest
    else if comp = "..".toList then normStack stack.dropLast rest
    else normStack (stack ++ [comp]) rest

/-- Resolution of an absolute path string: split on the separator,
normalize, rebuild. -/
def resolveAbs (p : List Char) : List Char :=
  '/' :: List.intercalate ['/'] (normStack [] (List.splitOn '/' p))

/-- Last path component, as used by the extension inspection. -/
def pathBasename (p : List Char) : List Char :=
  ((List.splitOn '/' p).getLast?).getD []

/-- Extension of the last path component including the dot; empty when
the component has no dot or only a leading one. -/
def extname (p : List Char) : List Char :=
  let b := pathBasename p
  match lastIndexOfDot b with
  | some d => if d = 0 then [] else b.drop d
  | none => []

/-- MIME table of the image route. -/
def MIME_TYPES : List (List Char × List Char) :=
  [(".png".toList, "image/png".toList),
   (".jpg".toList, "image/jpeg".toList),
   (".jpeg".toList, "image/jpeg".toList),
   (".gif".toList, "image/gif".toList),
   (".webp".toList, "image/webp".toList)]

/-- Lookup in the MIME table. -/
def mimeLookup (ext : List Char) : Option (List Char) :=
  (MIME_TYPES.find? (fun kv => kv.1 == ext)).map Prod.snd

/-- Observable outcome of the image route: the two rejection statuses,
the missing-file status, or serving the file at a path with a type. -/
inductive GetOutcome where
  | invalidPath
  | unsupportedType
  | notFound
  | serve (path : List Char) (mime : List Char)
deriving DecidableEq, Repr

/-- Translation of the GET handler: reject a segment equal to dot-dot or
containing a backslash, join the segments under the notes directory,
reject when the resolved path does not extend the resolved notes
directory as a string prefix, reject unknown extensions, then serve the
file when it exists. -/
def imagesGET (notesDir : List Char) (segments : List (List Char))
    (fsExists : List Char → Bool) : GetOutcome :=
  if segments.any (fun s => s == "..".toList || s.contains '\\') then
    .invalidPath
  else
    let filePath := resolveAbs (notesDir ++ (segments.map (fun s => '/' :: s)).flatten)
    if ¬ (resolveAbs notesDir).isPrefixOf filePath then .invalidPath
    else
      match mimeLookup ((extname filePath).map jsToLower) with
      | none => .unsupportedType
      | some m => if fsExists filePath then .serve filePath m else .notFound

/-! ## Theorems -/

/-- Claim C6, counterexample: the buffer of the three bytes FF D8 FF
begins with the JPEG magic, yet the sniffer classifies it as unknown
rather than JPEG, because every buffer shorter than four bytes is
rejected up front; the shortest required prefix for JPEG is three bytes,
so the claim as stated fails here. -/
theorem detectMimeType_short_jpeg_counterexample :
    byteAt [0xff, 0xd8, 0xff] 0 = 0xff ∧ byteAt [0xff, 0xd8, 0xff] 1 = 0xd8 ∧
    byteAt [0xff, 0xd8, 0xff] 2 = 0xff ∧
    detectMimeType [0xff, 0xd8, 0xff] ≠ some "image/jpeg".toList ∧
    detectMimeType [0xff, 0xd8, 0xff] = none := by decide

/-- Claim C6, amended: on buffers of at least four bytes the sniffer
returns PNG, JPEG, GIF or WEBP exactly by the leading magic bytes, with
WEBP additionally requiring twelve bytes; every buffer shorter than four
bytes yields unknown, and a buffer matching no signature yields unknown.
The function is total, so no input raises an error, and it never sees a
filename. -/
theorem detectMimeType_spec (buffer : List Nat) :
    (buffer.length < 4 → detectMimeType buffer = none) ∧
    (4 ≤ buffer.length → byteAt buffer 0 = 0x89 → byteAt buffer 1 = 0x50 →
      byteAt buffer 2 = 0x4e → byteAt buffer 3 = 0x47 →
      detectMimeType buffer = some "image/png".toList) ∧
    (4 ≤ buffer.length → byteAt buffer 0 = 0xff → byteAt buffer 1 = 0xd8 →
      byteAt buffer 2 = 0xff → detectMimeType buffer = some "image/jpeg".toList) ∧
    (4 ≤ buffer.length → byteAt buffer 0 = 0x47 → byteAt buffer 1 = 0x49 →
      byteAt buffer 2 = 0x46 → byteAt buffer 3 = 0x38 →
      detectMimeType buffer = some "image/gif".toList) ∧
    (12 ≤ buffer.length → byteAt buffer 0 = 0x52 → byteAt buffer 1 = 0x49 →
      byteAt buffer 2 = 0x46 → byteAt buffer 3 = 0x46 → byteAt buffer 8 = 0x57 →
      byteAt buffer 9 = 0x45 → byteAt buffer 10 = 0x42 → byteAt buffer 11 = 0x50 →
      detectMimeType buffer = some "image/webp".toList) ∧
    (¬ (byteAt buffer 0 = 0x89 ∧ byteAt buffer 1 = 0x50 ∧
        byteAt buffer 2 = 0x4e ∧ byteAt buffer 3 = 0x47) →
     ¬ (byteAt buffer 0 = 0xff ∧ byteAt buffer 1 = 0xd8 ∧
        byteAt buffer 2 = 0xff) →
     ¬ (byteAt buffer 0 = 0x47 ∧ byteAt buffer 1 = 0x49 ∧
        byteAt buffer 2 = 0x46 ∧ byteAt buffer 3 = 0x38) →
     ¬ (12 ≤ buffer.length ∧ byteAt buffer 0 = 0x52 ∧ byteAt buffer 1 = 0x49 ∧
        byteAt buffer 2 = 0x46 ∧ byteAt buffer 3 = 0x46 ∧ byteAt buffer 8 = 0x57 ∧
        byteAt buffer 9 = 0x45 ∧ byteAt buffer 10 = 0x42 ∧ byteAt buffer 11 = 0x50) →
     detectMimeType buffer = none) := by
  refine ⟨?_, ?_, ?_, ?_, ?_, ?_⟩
  · intro h
    simp [detectMimeType, h]
  · intro hlen h0 h1 h2 h3
    rw [detectMimeType, if_neg (by omega), if_pos ⟨h0, h1, h2, h3⟩]
  · intro hlen h0 h1 h2
    rw [detectMimeType, if_neg (by omega), if_neg (by rintro ⟨a, -⟩; omega),
      if_pos ⟨h0, h1, h2⟩]
  · intro hlen h0 h1 h2 h3
    rw [detectMimeType, if_neg (by omega), if_neg (by rintro ⟨a, -⟩; omega),
      if_neg (by rintro ⟨a, -⟩; omega), if_pos ⟨h0, h1, h2, h3⟩]
  · intro hlen h0 h1 h2 h3 h8 h9 h10 h11
    rw [detectMimeType, if_neg (by omega), if_neg (by rintro ⟨a, -⟩; omega),
      if_neg (by rintro ⟨a, -⟩; omega), if_neg (by rintro ⟨a, -⟩; omega),
      if_pos ⟨by omega, h0, h1, h2, h3, h8, h9, h10, h11⟩]
  · intro n1 n2 n3 n4
    simp only [detectMimeType]
    split_ifs with h1 <;> rfl

/-- Witness for the amended C6 theorem at the four-byte PNG magic. -/
theorem detectMimeType_spec_witness :
    4 ≤ ([0x89, 0x50, 0x4e, 0x47] : List Nat).length ∧
    detectMimeType [0x89, 0x50, 0x4e, 0x47] = some "image/png".toList :=
  ⟨by decide, (detectMimeType_spec [0x89, 0x50, 0x4e, 0x47]).2.1 (by decide)
    (by decide) (by decide) (by decide) (by decide)⟩

/-- Claim C2, counterexample: for a response whose first block is an
image and whose second block is the text x, the worker extracts the empty
string, not the second block's text: the source inspects only content
index zero. -/
theorem extractMarkdown_counterexample :
    extractMarkdown [ContentBlock.image, ContentBlock.text "x".toList] = some [] ∧
    extractMarkdown [ContentBlock.image, ContentBlock.text "x".toList] ≠
      some "x".toList := by decide

/-- Claim C2, amended: the worker extracts the text of the first content
block when that block is text-typed; when the first block exists but is
not text-typed the result is the empty string, later text blocks being
ignored; an empty block sequence raises an error instead of producing a
value. -/
theorem extractMarkdown_spec (content : List ContentBlock) :
    (∀ s rest, content = ContentBlock.text s :: rest →
      extractMarkdown content = some s) ∧
    (∀ b rest, content = b :: rest → b.isText = false →
      extractMarkdown content = some []) ∧
    (content = [] → extractMarkdown content = none) := by
  refine ⟨?_, ?_, ?_⟩
  · rintro s rest rfl
    rfl
  · rintro b rest rfl hb
    cases b <;> simp_all [extractMarkdown, ContentBlock.isText]
  · rintro rfl
    rfl

/-- Witness for the amended C2 theorem on three concrete responses. -/
theorem extractMarkdown_spec_witness :
    extractMarkdown [ContentBlock.text "a".toList] = some "a".toList ∧
    extractMarkdown [ContentBlock.image] = some [] ∧
    extractMarkdown [] = none :=
  ⟨(extractMarkdown_spec _).1 _ _ rfl,
   (extractMarkdown_spec _).2.1 _ _ rfl rfl,
   (extractMarkdown_spec _).2.2 rfl⟩

/-- Claim C7, counterexample: with a nonempty upload and the credential
absent, the orchestrator rejects with status 500, which is a server
error, not a client error, contradicting the claim that both input
errors are client errors. -/
theorem POST_missing_key_counterexample :
    POST [⟨"A.html".toList⟩] none
      (fun _ => ⟨fun _ => .ok ⟨[]⟩, .ok ()⟩) [] =
      .errorResp "ANTHROPIC_API_KEY not configured".toList 500 ∧
    ¬ (400 ≤ 500 ∧ 500 < 500) := by
  constructor
  · rfl
  · decide

/-- Claim C7, amended: a zero-file upload is rejected with the client
error 400 and a missing credential with the server error 500, both
before any unit processing begins (the response is then independent of
the unit outcomes and of the scheduling), and in every other case the
orchestrator returns a report, so these two conditions are the only ways
it fails. -/
theorem POST_precheck_spec (files : List UFile) (apiKey : Option (List Char))
    (envs envs2 : Nat → UnitEnv) (schedule schedule2 : List Nat) :
    (files = [] →
      POST files apiKey envs schedule = .errorResp "No files provided".toList 400 ∧
      (400 ≤ 400 ∧ 400 < 500)) ∧
    (files ≠ [] → apiKey = none →
      POST files apiKey envs schedule =
        .errorResp "ANTHROPIC_API_KEY not configured".toList 500 ∧
      ¬ (400 ≤ 500 ∧ 500 < 500)) ∧
    (∀ key, files ≠ [] → apiKey = some key →
      ∃ res unm, POST files apiKey envs schedule = .report res unm) ∧
    ((files = [] ∨ apiKey = none) →
      POST files apiKey envs schedule = POST files apiKey envs2 schedule2) := by
  refine ⟨?_, ?_, ?_, ?_⟩
  · rintro rfl
    exact ⟨by simp [POST], by omega⟩
  · intro hne hk
    subst hk
    refine ⟨?_, by omega⟩
    rw [POST, if_neg (by simp [hne])]
  · intro key hne hk
    subst hk
    rw [POST, if_neg (by simp [hne])]
    exact ⟨_, _, rfl⟩
  · rintro (rfl | hk)
    · simp [POST]
    · subst hk
      by_cases hne : files.length = 0
      · simp [POST, hne]
      · rw [POST, if_neg hne, POST, if_neg hne]

/-- Witness for the amended C7 theorem: the three response shapes at
concrete inputs. -/
theorem POST_precheck_spec_witness :
    (POST [] none (fun _ => ⟨fun _ => .ok ⟨[]⟩, .ok ()⟩) [] =
      .errorResp "No files provided".toList 400 ∧ (400 ≤ 400 ∧ 400 < 500)) ∧
    (POST [⟨"A.html".toList⟩] none (fun _ => ⟨fun _ => .ok ⟨[]⟩, .ok ()⟩) [] =
      .errorResp "ANTHROPIC_API_KEY not configured".toList 500 ∧
      ¬ (400 ≤ 500 ∧ 500 < 500)) ∧
    (∃ res unm, POST [⟨"A.html".toList⟩] (some "k".toList)
      (fun _ => ⟨fun _ => .ok ⟨[]⟩, .ok ()⟩) [] = .report res unm) :=
  ⟨(POST_precheck_spec [] none (fun _ => ⟨fun _ => .ok ⟨[]⟩, .ok ()⟩)
      (fun _ => ⟨fun _ => .ok ⟨[]⟩, .ok ()⟩) [] []).1 rfl,
   (POST_precheck_spec [⟨"A.html".toList⟩] none
      (fun _ => ⟨fun _ => .ok ⟨[]⟩, .ok ()⟩)
      (fun _ => ⟨fun _ => .ok ⟨[]⟩, .ok ()⟩) [] []).2.1 (by decide) rfl,
   (POST_precheck_spec [⟨"A.html".toList⟩] (some "k".toList)
      (fun _ => ⟨fun _ => .ok ⟨[]⟩, .ok ()⟩)
      (fun _ => ⟨fun _ => .ok ⟨[]⟩, .ok ()⟩) [] []).2.2.1
     "k".toList (by decide) rfl⟩

/-- Claim C10, counterexample: a single segment containing an embedded
slash and a dot-dot step passes the per-segment check, and the prefix
comparison of resolved strings accepts the sibling directory whose name
extends the notes directory name, so a file whose resolved path lies
outside the notes directory is read and served, against the claim that
only files inside the notes directory are ever served. -/
theorem imagesGET_prefix_counterexample :
    imagesGET "/a/notes".toList ["../notesX/e.png".toList] (fun _ => true) =
      .serve "/a/notesX/e.png".toList "image/png".toList ∧
    ¬ List.IsPrefix (resolveAbs "/a/notes".toList ++ ['/'])
      "/a/notesX/e.png".toList := by
  constructor
  · decide
  · decide

/-- Claim C10, amended: a request with a segment equal to dot-dot or
containing a backslash is rejected with a 400 without consulting the file
system, as is one whose resolved path does not extend the resolved notes
directory as a string prefix (a check that also admits sibling paths
whose leading characters coincide with the notes directory path); a file
is served only when its resolved path extends the resolved notes
directory string, its extension is one of the known image extensions,
and it exists. -/
theorem imagesGET_spec (notesDir : List Char) (segments : List (List Char))
    (fsE fsE2 : List Char → Bool) :
    (segments.any (fun s => s == "..".toList || s.contains '\\') = true →
      imagesGET notesDir segments fsE = .invalidPath) ∧
    (¬ List.IsPrefix (resolveAbs notesDir)
        (resolveAbs (notesDir ++ (segments.map (fun s => '/' :: s)).flatten)) →
      imagesGET notesDir segments fsE = .invalidPath) ∧
    (∀ p m, imagesGET notesDir segments fsE = .serve p m →
      List.IsPrefix (resolveAbs notesDir) p ∧
      mimeLookup ((extname p).map jsToLower) = some m ∧
      ((extname p).map jsToLower) ∈ MIME_TYPES.map Prod.fst ∧
      fsE p = true) ∧
    (imagesGET notesDir segments fsE = .invalidPath →
      imagesGET notesDir segments fsE2 = .invalidPath) := by
  by_cases hA : segments.any (fun s => s == "..".toList || s.contains '\\') = true
  · have hout : ∀ g : List Char → Bool, imagesGET notesDir segments g = .invalidPath := by
      intro g
      simp only [imagesGET]
      rw [if_pos hA]
    refine ⟨fun _ => hout fsE, fun _ => hout fsE, ?_, fun _ => hout fsE2⟩
    intro p m h
    rw [hout fsE] at h
    cases h
  · by_cases hP : (resolveAbs notesDir).isPrefixOf
        (resolveAbs (notesDir ++ (segments.map (fun s => '/' :: s)).flatten)) = true
    · have hPre : List.IsPrefix (resolveAbs notesDir)
          (resolveAbs (notesDir ++ (segments.map (fun s => '/' :: s)).flatten)) :=
        List.isPrefixOf_iff_prefix.mp hP
      have hred : ∀ g : List Char → Bool, imagesGET notesDir segments g =
          (match mimeLookup ((extname (resolveAbs
              (notesDir ++ (segments.map (fun s => '/' :: s)).flatten))).map jsToLower) with
            | none => GetOutcome.unsupportedType
            | some m => if g (resolveAbs
                (notesDir ++ (segments.map (fun s => '/' :: s)).flatten)) then
                GetOutcome.serve (resolveAbs
                  (notesDir ++ (segments.map (fun s => '/' :: s)).flatten)) m
              else GetOutcome.notFound) := by
        intro g
        simp only [imagesGET]
        rw [if_neg hA, if_neg (fun hc => hc hP)]
      refine ⟨fun hc => absurd hc hA, fun hc => absurd hPre hc, ?_, ?_⟩
      · intro p m h
        rw [hred fsE] at h
        split at h
        · cases h
        · rename_i m2 hM
          split at h
          · rename_i hE
            cases h
            refine ⟨hPre, hM, ?_, hE⟩
            have hfind : ∃ kv ∈ MIME_TYPES,
                (kv.1 == (extname (resolveAbs (notesDir ++
                  (segments.map (fun s => '/' :: s)).flatten))).map jsToLower) = true := by
              rcases hf : MIME_TYPES.find? (fun kv => kv.1 == (extname (resolveAbs
                  (notesDir ++ (segments.map (fun s => '/' :: s)).flatten))).map jsToLower)
                with _ | kv
              · rw [mimeLookup, hf] at hM
                cases hM
              · have hpa := List.find?_some hf
                exact ⟨kv, List.mem_of_find?_eq_some hf, hpa⟩
            rcases hfind with ⟨kv, hkv, hbeq⟩
            exact List.mem_map.mpr ⟨kv, hkv, by simpa using hbeq⟩
          · cases h
      · intro h
        rw [hred fsE] at h
        split at h
        · cases h
        · split at h
          · cases h
          · cases h
    · have hout : ∀ g : List Char → Bool, imagesGET notesDir segments g = .invalidPath := by
        intro g
        simp only [imagesGET]
        rw [if_neg hA, if_pos hP]
      refine ⟨fun hc => absurd hc hA, fun _ => hout fsE, ?_, fun _ => hout fsE2⟩
      intro p m h
      rw [hout fsE] at h
      cases h

/-- Witness for the amended C10 theorem: a dot-dot segment is rejected,
and a plain request is served from under the notes directory. -/
theorem imagesGET_spec_witness :
    imagesGET "/a/notes".toList ["..".toList] (fun _ => true) = .invalidPath ∧
    (List.IsPrefix (resolveAbs "/a/notes".toList) "/a/notes/x.png".toList ∧
     mimeLookup ((extname "/a/notes/x.png".toList).map jsToLower) =
       some "image/png".toList ∧
     ((extname "/a/notes/x.png".toList).map jsToLower) ∈ MIME_TYPES.map Prod.fst ∧
     (fun _ : List Char => true) "/a/notes/x.png".toList = true) :=
  ⟨(imagesGET_spec "/a/notes".toList ["..".toList] (fun _ => true)
      (fun _ => true)).1 (by decide),
   (imagesGET_spec "/a/notes".toList ["x.png".toList] (fun _ => true)
      (fun _ => true)).2.2.1 "/a/notes/x.png".toList "image/png".toList (by decide)⟩

/-- Claim C8: the CSV parser obeys the stated character rules.  Inside
quotes a doubled double-quote emits one literal quote and stays quoted,
and a single double-quote leaves the quoted state; outside quotes a
double-quote enters the quoted state, a comma ends a field, and CR LF,
bare CR and LF each end exactly one row; any other character is appended
to the current field; at end of input a nonempty trailing field or row is
still emitted.  The parser is a total function, so no input raises an
error, and the quoted field of the claim parses to the single field with
the embedded comma and literal quote. -/
theorem parseCSV_spec :
    (∀ rest field row rows, parseCSVLoop ('"' :: rest) false field row rows =
        parseCSVLoop rest true field row rows) ∧
    (∀ rest field row rows, parseCSVLoop ('"' :: '"' :: rest) true field row rows =
        parseCSVLoop rest true (field ++ ['"']) row rows) ∧
    (∀ rest field row rows, rest.head? ≠ some '"' →
        parseCSVLoop ('"' :: rest) true field row rows =
        parseCSVLoop rest false field row rows) ∧
    (∀ c rest field row rows, c ≠ '"' →
        parseCSVLoop (c :: rest) true field row rows =
        parseCSVLoop rest true (field ++ [c]) row rows) ∧
    (∀ rest field row rows, parseCSVLoop (',' :: rest) false field row rows =
        parseCSVLoop rest false [] (row ++ [field]) rows) ∧
    (∀ rest field row rows,
        parseCSVLoop ('\r' :: '\n' :: rest) false field row rows =
        parseCSVLoop rest false [] [] (rows ++ [row ++ [field]])) ∧
    (∀ rest field row rows, rest.head? ≠ some '\n' →
        parseCSVLoop ('\r' :: rest) false field row rows =
        parseCSVLoop rest false [] [] (rows ++ [row ++ [field]])) ∧
    (∀ rest field row rows, parseCSVLoop ('\n' :: rest) false field row rows =
        parseCSVLoop rest false [] [] (rows ++ [row ++ [field]])) ∧
    (∀ c rest field row rows, c ≠ '"' → c ≠ ',' → c ≠ '\r' → c ≠ '\n' →
        parseCSVLoop (c :: rest) false field row rows =
        parseCSVLoop rest false (field ++ [c]) row rows) ∧
    (∀ q field row rows, field ≠ [] ∨ row ≠ [] →
        parseCSVLoop [] q field row rows = rows ++ [row ++ [field]]) ∧
    parseCSV ("\"a,b\"\"c\"".toList) = [["a,b\"c".toList]] := by
  refine ⟨?_, fun rest field row rows => rfl,
    ?_, ?_, fun rest field row rows => rfl, fun rest field row rows => rfl,
    ?_, fun rest field row rows => rfl, ?_, ?_, by decide⟩
  · intro rest field row rows
    rw [parseCSVLoop.eq_def]
    split <;> simp_all [@eq_comm Char]
  · intro rest field row rows h
    rw [parseCSVLoop.eq_def]
    split <;> simp_all [@eq_comm Char]
  · intro c rest field row rows h
    rw [parseCSVLoop.eq_def]
    split <;> simp_all [@eq_comm Char]
  · intro rest field row rows h
    rw [parseCSVLoop.eq_def]
    split <;> simp_all [@eq_comm Char]
  · intro c rest field row rows h1 h2 h3 h4
    rw [parseCSVLoop.eq_def]
    split <;> simp_all [@eq_comm Char]
  · intro q field row rows h
    rw [parseCSVLoop.eq_def]
    split <;> simp_all

/-- Witness for the C8 theorem: the conditional clauses instantiated on
concrete characters and accumulators. -/
theorem parseCSV_spec_witness :
    parseCSVLoop ['"', 'x'] true "f".toList [] [] =
      parseCSVLoop ['x'] false "f".toList [] [] ∧
    parseCSVLoop ['x'] true [] [] [] = parseCSVLoop [] true ['x'] [] [] ∧
    parseCSVLoop ['\r', 'x'] false [] [] [] =
      parseCSVLoop ['x'] false [] [] [[[]]] ∧
    parseCSVLoop ['x'] false [] [] [] = parseCSVLoop [] false ['x'] [] [] ∧
    parseCSVLoop [] false ['x'] [] [] = [[['x']]] :=
  ⟨parseCSV_spec.2.2.1 ['x'] "f".toList [] [] (by decide),
   parseCSV_spec.2.2.2.1 'x' [] [] [] [] (by decide),
   by
     have h := parseCSV_spec.2.2.2.2.2.2.1 ['x'] [] [] [] (by decide)
     simpa using h,
   parseCSV_spec.2.2.2.2.2.2.2.2.1 'x' [] [] [] [] (by decide) (by decide)
     (by decide) (by decide),
   parseCSV_spec.2.2.2.2.2.2.2.2.2.1 false ['x'] [] [] (by decide)⟩

/-- Lemma for a successful attempt: the loop returns the value at once. -/
theorem retryLoop_ok {R : Type} (outcomes : Nat → Except JsError R)
    (fuel a : Nat) (r : R) (delays : List Nat) (h : outcomes a = .ok r) :
    retryLoop outcomes (fuel + 1) a delays = ⟨.ok r, a + 1, delays⟩ := by
  simp only [retryLoop]
  rw [h]

/-- Lemma for a rate-limited attempt below the ceiling: the loop waits the
linear backoff delay of the attempt and moves to the next attempt. -/
theorem retryLoop_rate {R : Type} (outcomes : Nat → Except JsError R)
    (fuel a : Nat) (e : JsError) (delays : List Nat) (h : outcomes a = .error e)
    (hrl : isRateLimitErr e = true) (ha : a < MAX_RETRIES) :
    retryLoop outcomes (fuel + 1) a delays =
      retryLoop outcomes fuel (a + 1)
        (delays ++ [RETRY_BASE_DELAY_MS * (a + 1)]) := by
  simp only [retryLoop]
  rw [h]
  exact if_pos ⟨by simp [hrl], ha⟩

/-- Lemma for a failure that stops the loop: any failure that is not a
rate-limit signal below the ceiling propagates at once. -/
theorem retryLoop_stop {R : Type} (outcomes : Nat → Except JsError R)
    (fuel a : Nat) (e : JsError) (delays : List Nat) (h : outcomes a = .error e)
    (hstop : ¬ (isRateLimitErr e = true ∧ a < MAX_RETRIES)) :
    retryLoop outcomes (fuel + 1) a delays = ⟨.error e, a + 1, delays⟩ := by
  simp only [retryLoop]
  rw [h]
  exact if_neg hstop

/-- Lemma reaching attempt k: when the first k attempts all fail with
rate-limit signals, the controller arrives at attempt k having waited the
linear backoff delays base, two base, up to k base. -/
theorem retryReach {R : Type} (outcomes : Nat → Except JsError R) (k : Nat)
    (hk : k ≤ MAX_RETRIES)
    (hbefore : ∀ j, j < k → ∃ e, outcomes j = .error e ∧ isRateLimitErr e = true) :
    callClaudeWithRetry outcomes =
      retryLoop outcomes (MAX_RETRIES + 1 - k) k
        ((List.range k).map (fun j => RETRY_BASE_DELAY_MS * (j + 1))) := by
  induction k with
  | zero => rfl
  | succ n ih =>
    have hn : n ≤ MAX_RETRIES := by omega
    obtain ⟨e, he, hrl⟩ := hbefore n (by omega)
    have hstep := retryLoop_rate outcomes (MAX_RETRIES - n) n e
      ((List.range n).map (fun j => RETRY_BASE_DELAY_MS * (j + 1))) he hrl (by omega)
    have hfuel : MAX_RETRIES + 1 - n = (MAX_RETRIES - n) + 1 := by omega
    have hfuel2 : MAX_RETRIES + 1 - (n + 1) = MAX_RETRIES - n := by omega
    rw [ih hn (fun j hj => hbefore j (by omega)), hfuel, hstep, hfuel2,
      List.range_succ, List.map_append]
    rfl

/-- Claim C3: for every sequence of attempt outcomes, when the first k of
at most four attempts fail with rate-limit signals, the controller waits
base times one, base times two, and so on (linear backoff, attempt number
starting at one) before each retry; a success at attempt k returns that
value after k + 1 total attempts; a non-rate-limit failure at attempt k
propagates immediately with no further attempt and no further delay; and
a rate-limit failure at the final fourth attempt propagates as the
failure of the call. -/
theorem callClaudeWithRetry_spec {R : Type} (outcomes : Nat → Except JsError R)
    (k : Nat) (hk : k ≤ MAX_RETRIES)
    (hbefore : ∀ j, j < k → ∃ e, outcomes j = .error e ∧ isRateLimitErr e = true) :
    (∀ r, outcomes k = .ok r →
      callClaudeWithRetry outcomes =
        ⟨.ok r, k + 1, (List.range k).map (fun j => RETRY_BASE_DELAY_MS * (j + 1))⟩) ∧
    (∀ e, outcomes k = .error e → isRateLimitErr e = false →
      callClaudeWithRetry outcomes =
        ⟨.error e, k + 1, (List.range k).map (fun j => RETRY_BASE_DELAY_MS * (j + 1))⟩) ∧
    (k = MAX_RETRIES → ∀ e, outcomes k = .error e → isRateLimitErr e = true →
      callClaudeWithRetry outcomes =
        ⟨.error e, k + 1, (List.range k).map (fun j => RETRY_BASE_DELAY_MS * (j + 1))⟩) := by
  have hfuel : MAX_RETRIES + 1 - k = (MAX_RETRIES - k) + 1 := by omega
  refine ⟨?_, ?_, ?_⟩
  · intro r h
    rw [retryReach outcomes k hk hbefore, hfuel, retryLoop_ok _ _ _ _ _ h]
  · intro e h hrl
    rw [retryReach outcomes k hk hbefore, hfuel,
      retryLoop_stop _ _ _ _ _ h (by rintro ⟨a, -⟩; rw [hrl] at a; cases a)]
  · intro hmax e h hrl
    rw [retryReach outcomes k hk hbefore, hfuel,
      retryLoop_stop _ _ _ _ _ h (by rintro ⟨-, b⟩; omega)]

/-- Witness for the C3 theorem: an action rate-limited twice then
successful succeeds on the third attempt with the two linear delays, and
an action rate-limited on all four attempts fails after the three
delays. -/
theorem callClaudeWithRetry_spec_witness :
    callClaudeWithRetry (fun j => if j < 2 then
        Except.error ⟨"rate_limit".toList, none⟩ else Except.ok 7) =
      ⟨.ok 7, 2 + 1, (List.range 2).map (fun j => RETRY_BASE_DELAY_MS * (j + 1))⟩ ∧
    callClaudeWithRetry (fun _ : Nat =>
        (Except.error ⟨"rate_limit".toList, none⟩ : Except JsError Nat)) =
      ⟨.error ⟨"rate_limit".toList, none⟩, 3 + 1,
        (List.range 3).map (fun j => RETRY_BASE_DELAY_MS * (j + 1))⟩ :=
  ⟨(callClaudeWithRetry_spec (fun j => if j < 2 then
        Except.error ⟨"rate_limit".toList, none⟩ else Except.ok 7) 2 (by decide)
      (fun j hj => ⟨⟨"rate_limit".toList, none⟩, by
        interval_cases j <;> exact ⟨rfl, by decide⟩⟩)).1 7 rfl,
   (callClaudeWithRetry_spec (fun _ : Nat =>
        (Except.error ⟨"rate_limit".toList, none⟩ : Except JsError Nat)) 3 (by decide)
      (fun j hj => ⟨⟨"rate_limit".toList, none⟩, rfl, by decide⟩)).2.2 rfl
     ⟨"rate_limit".toList, none⟩ rfl (by decide)⟩

/-- Lemma: the content path of a slug is never a prefix of the slug and
never equal to it, being one component longer. -/
theorem contentPath_outside (slug : List (List Char)) :
    (slug ++ [contentFileName]).isPrefixOf slug = false ∧
    slug ++ [contentFileName] ≠ slug := by
  constructor
  · rw [Bool.eq_false_iff]
    intro hc
    have hle := (List.isPrefixOf_iff_prefix.mp hc).length_le
    simp at hle
  · intro hc
    have := congrArg List.length hc
    simp at this

/-- Lemma: the directory-ensuring step of createPage never changes the
file map. -/
theorem createPage_dir_files (fs : FS) (slug : List (List Char)) (p : List (List Char)) :
    (if existsSync fs slug then fs else mkdirRecursive fs slug).files p = fs.files p := by
  split <;> rfl

/-- Claim C9: createPage is idempotent.  When the content file of the
slug already holds some content, that content is untouched; when nothing
exists at the content path, the call creates an empty content file; and a
second call on the same slug returns the file system of the first call
unchanged. -/
theorem createPage_spec :
    (∀ (fs : FS) (slug : List (List Char)) (c : List Char),
      fs.files (slug ++ [contentFileName]) = some c →
      (createPage fs slug).files (slug ++ [contentFileName]) = some c) ∧
    (∀ (fs : FS) (slug : List (List Char)),
      fs.files (slug ++ [contentFileName]) = none →
      fs.dirs (slug ++ [contentFileName]) = false →
      (createPage fs slug).files (slug ++ [contentFileName]) = some []) ∧
    (∀ (fs : FS) (slug : List (List Char)),
      createPage (createPage fs slug) slug = createPage fs slug) := by
  refine ⟨?_, ?_, ?_⟩
  · intro fs slug c h
    have hf1 := createPage_dir_files fs slug (slug ++ [contentFileName])
    have hex : existsSync (if existsSync fs slug then fs else mkdirRecursive fs slug)
        (slug ++ [contentFileName]) = true := by
      rw [existsSync, hf1, h]
      simp
    simp only [createPage]
    rw [if_pos hex, hf1]
    exact h
  · intro fs slug hN hD
    have hf1 := createPage_dir_files fs slug (slug ++ [contentFileName])
    have hd1 : (if existsSync fs slug then fs else mkdirRecursive fs slug).dirs
        (slug ++ [contentFileName]) = false := by
      split
      · exact hD
      · simp [mkdirRecursive, hD, (contentPath_outside slug).1]
    have hex : existsSync (if existsSync fs slug then fs else mkdirRecursive fs slug)
        (slug ++ [contentFileName]) = false := by
      rw [existsSync, hf1, hd1, hN]
      rfl
    simp only [createPage]
    rw [if_neg (by simp [hex])]
    simp [writeFileSync]
  · intro fs slug
    have hne : slug ≠ slug ++ [contentFileName] :=
      fun hc => (contentPath_outside slug).2 hc.symm
    by_cases e1 : existsSync fs slug = true
    · have hfs1 : (if existsSync fs slug then fs else mkdirRecursive fs slug) = fs :=
        if_pos e1
      by_cases e2 : existsSync fs (slug ++ [contentFileName]) = true
      · have hg : createPage fs slug = fs := by
          simp only [createPage]
          rw [hfs1, if_pos e2]
        rw [hg]
        simp only [createPage]
        rw [hfs1, if_pos e2]
      · have hg : createPage fs slug =
            writeFileSync fs (slug ++ [contentFileName]) [] := by
          simp only [createPage]
          rw [hfs1, if_neg e2]
        rw [hg]
        have h3 : existsSync (writeFileSync fs (slug ++ [contentFileName]) [])
            slug = true := by
          unfold existsSync at e1 ⊢
          simp only [writeFileSync]
          rw [if_neg hne]
          exact e1
        have h4 : existsSync (writeFileSync fs (slug ++ [contentFileName]) [])
            (slug ++ [contentFileName]) = true := by
          unfold existsSync
          simp [writeFileSync]
        simp only [createPage]
        rw [if_pos h3, if_pos h4]
    · have hfs1 : (if existsSync fs slug then fs else mkdirRecursive fs slug) =
          mkdirRecursive fs slug := if_neg (by simp [e1])
      have hdself : (mkdirRecursive fs slug).dirs slug = true := by
        simp [mkdirRecursive, List.isPrefixOf_iff_prefix]
      by_cases e2 : existsSync (mkdirRecursive fs slug)
          (slug ++ [contentFileName]) = true
      · have hg : createPage fs slug = mkdirRecursive fs slug := by
          simp only [createPage]
          rw [hfs1, if_pos e2]
        rw [hg]
        have h3 : existsSync (mkdirRecursive fs slug) slug = true := by
          unfold existsSync
          simp [hdself]
        simp only [createPage]
        rw [if_pos h3, if_pos e2]
      · have hg : createPage fs slug =
            writeFileSync (mkdirRecursive fs slug) (slug ++ [contentFileName]) [] := by
          simp only [createPage]
          rw [hfs1, if_neg e2]
        rw [hg]
        have h3 : existsSync (writeFileSync (mkdirRecursive fs slug)
            (slug ++ [contentFileName]) []) slug = true := by
          unfold existsSync
          simp only [writeFileSync]
          rw [if_neg hne]
          simp [hdself]
        have h4 : existsSync (writeFileSync (mkdirRecursive fs slug)
            (slug ++ [contentFileName]) []) (slug ++ [contentFileName]) = true := by
          unfold existsSync
          simp [writeFileSync]
        simp only [createPage]
        rw [if_pos h3, if_pos h4]

/-- Lemma: the boolean asset match of the source holds exactly when the
base names are equal or the asset base name extends the document base
name by a hyphen or an underscore. -/
theorem imgMatches_iff (b : List Char) (img : UFile) :
    imgMatches b img = true ↔
      (getBaseName img.name = b ∨
       List.IsPrefix (b ++ ['-']) (getBaseName img.name) ∨
       List.IsPrefix (b ++ ['_']) (getBaseName img.name)) := by
  simp [imgMatches, List.isPrefixOf_iff_prefix, Bool.or_eq_true,
    decide_eq_true_eq, or_assoc]

/-- Lemma: the asset match depends only on the asset filename. -/
theorem imgMatches_name_eq (b : List Char) (img img2 : UFile)
    (h : img2.name = img.name) : imgMatches b img2 = imgMatches b img := by
  simp [imgMatches, h]

/-- Lemma: a name is among the matched image names exactly when some
uploaded document matches some uploaded image of that name. -/
theorem mem_matchedNames (files : List UFile) (y : List Char) :
    y ∈ ((((htmlFilesOf files).map (mkGroup (imageFilesOf files))).map
        FileGroup.imageFiles).flatten.map UFile.name) ↔
      ∃ doc ∈ htmlFilesOf files, ∃ img2 ∈ imageFilesOf files,
        imgMatches (getBaseName doc.name) img2 = true ∧ img2.name = y := by
  simp only [List.map_map, List.mem_map, List.mem_flatten, Function.comp]
  constructor
  · rintro ⟨img2, ⟨s, ⟨doc, hdoc, rfl⟩, hin⟩, rfl⟩
    simp only [mkGroup, List.mem_filter] at hin
    exact ⟨doc, hdoc, img2, hin.1, hin.2, rfl⟩
  · rintro ⟨doc, hdoc, img2, him, hmatch, rfl⟩
    refine ⟨img2, ⟨(mkGroup (imageFilesOf files) doc).imageFiles,
      ⟨doc, hdoc, rfl⟩, ?_⟩, rfl⟩
    simp only [mkGroup, List.mem_filter]
    exact ⟨him, hmatch⟩

/-- Claim C5: the grouper yields one unit per HTML document in original
order, the unit's name being the document filename minus its extension
and its slug that name with whitespace runs replaced by hyphens; an
uploaded image belongs to a unit exactly when its base name equals the
document base name or extends it by a hyphen or an underscore; the
unmatched list holds exactly the names of uploaded images matched by no
document; and the concrete Report and Notes upload groups as the claim
states. -/
theorem groupFiles_spec (files : List UFile) :
    ((groupFiles files).1.length = (htmlFilesOf files).length ∧
    (∀ i, i < (htmlFilesOf files).length →
      ((groupFiles files).1.getD i default).name =
        getBaseName (((htmlFilesOf files).getD i ⟨[]⟩).name) ∧
      ((groupFiles files).1.getD i default).slug =
        slugify (getBaseName (((htmlFilesOf files).getD i ⟨[]⟩).name)) ∧
      ((groupFiles files).1.getD i default).htmlFile =
        some ((htmlFilesOf files).getD i ⟨[]⟩) ∧
      (∀ img, img ∈ ((groupFiles files).1.getD i default).imageFiles ↔
        (img ∈ imageFilesOf files ∧
          (getBaseName img.name = getBaseName (((htmlFilesOf files).getD i ⟨[]⟩).name) ∨
           List.IsPrefix (getBaseName (((htmlFilesOf files).getD i ⟨[]⟩).name) ++ ['-'])
             (getBaseName img.name) ∨
           List.IsPrefix (getBaseName (((htmlFilesOf files).getD i ⟨[]⟩).name) ++ ['_'])
             (getBaseName img.name))))) ∧
    (∀ x, x ∈ (groupFiles files).2 ↔
      ∃ img, img ∈ imageFilesOf files ∧ img.name = x ∧
        ∀ doc, doc ∈ htmlFilesOf files →
          ¬ (getBaseName img.name = getBaseName doc.name ∨
             List.IsPrefix (getBaseName doc.name ++ ['-']) (getBaseName img.name) ∨
             List.IsPrefix (getBaseName doc.name ++ ['_']) (getBaseName img.name)))) ∧
    groupFiles [⟨"Report.html".toList⟩, ⟨"Notes.html".toList⟩,
        ⟨"Report-1.png".toList⟩, ⟨"Report_2.png".toList⟩,
        ⟨"Notes.png".toList⟩, ⟨"Orphan.png".toList⟩] =
      ([⟨"Report".toList, "Report".toList, some ⟨"Report.html".toList⟩,
          [⟨"Report-1.png".toList⟩, ⟨"Report_2.png".toList⟩]⟩,
        ⟨"Notes".toList, "Notes".toList, some ⟨"Notes.html".toList⟩,
          [⟨"Notes.png".toList⟩]⟩],
       ["Orphan.png".toList]) := by
  have hfst : (groupFiles files).1 =
      (htmlFilesOf files).map (mkGroup (imageFilesOf files)) := rfl
  refine ⟨⟨by simp [hfst], ?_, ?_⟩, by decide⟩
  · intro i hi
    have hmap : (groupFiles files).1.getD i default =
        mkGroup (imageFilesOf files) ((htmlFilesOf files).getD i ⟨[]⟩) := by
      rw [hfst, List.getD_eq_getElem _ _ (by simpa using hi),
        List.getD_eq_getElem _ _ hi, List.getElem_map]
    rw [hmap]
    refine ⟨rfl, rfl, rfl, ?_⟩
    intro img
    simp only [mkGroup, List.mem_filter]
    rw [imgMatches_iff]
  · intro x
    have hsnd : (groupFiles files).2 =
        ((imageFilesOf files).filter (fun img =>
          ¬ ((((htmlFilesOf files).map (mkGroup (imageFilesOf files))).map
             FileGroup.imageFiles).flatten.map UFile.name).contains img.name)).map
          UFile.name := rfl
    rw [hsnd]
    simp only [List.mem_map, List.mem_filter, decide_eq_true_eq]
    constructor
    · rintro ⟨img, ⟨hmem, hnc⟩, rfl⟩
      refine ⟨img, hmem, rfl, ?_⟩
      intro doc hdoc hcond
      refine hnc ?_
      have hy : img.name ∈ ((((htmlFilesOf files).map (mkGroup (imageFilesOf files))).map
          FileGroup.imageFiles).flatten.map UFile.name) :=
        (mem_matchedNames files img.name).mpr
          ⟨doc, hdoc, img, hmem, (imgMatches_iff _ _).mpr hcond, rfl⟩
      simpa using hy
    · rintro ⟨img, hmem, rfl, hall⟩
      refine ⟨img, ⟨hmem, ?_⟩, rfl⟩
      intro hc
      have hy : img.name ∈ ((((htmlFilesOf files).map (mkGroup (imageFilesOf files))).map
          FileGroup.imageFiles).flatten.map UFile.name) := by
        simpa using hc
      obtain ⟨doc, hdoc, img2, him2, hm2, hname⟩ := (mem_matchedNames files img.name).mp hy
      rw [imgMatches_name_eq _ img img2 hname] at hm2
      exact hall doc hdoc ((imgMatches_iff _ _).mp hm2)

/-- Witness for the C5 theorem at the concrete Report and Notes upload:
the first unit carries the base name of the first document. -/
theorem groupFiles_spec_witness :
    0 < (htmlFilesOf [⟨"Report.html".toList⟩, ⟨"Notes.html".toList⟩,
        ⟨"Report-1.png".toList⟩, ⟨"Report_2.png".toList⟩,
        ⟨"Notes.png".toList⟩, ⟨"Orphan.png".toList⟩]).length ∧
    ((groupFiles [⟨"Report.html".toList⟩, ⟨"Notes.html".toList⟩,
        ⟨"Report-1.png".toList⟩, ⟨"Report_2.png".toList⟩,
        ⟨"Notes.png".toList⟩, ⟨"Orphan.png".toList⟩]).1.getD 0 default).name =
      getBaseName (((htmlFilesOf [⟨"Report.html".toList⟩, ⟨"Notes.html".toList⟩,
        ⟨"Report-1.png".toList⟩, ⟨"Report_2.png".toList⟩,
        ⟨"Notes.png".toList⟩, ⟨"Orphan.png".toList⟩]).getD 0 ⟨[]⟩).name) :=
  ⟨by decide,
   (((groupFiles_spec [⟨"Report.html".toList⟩, ⟨"Notes.html".toList⟩,
        ⟨"Report-1.png".toList⟩, ⟨"Report_2.png".toList⟩,
        ⟨"Notes.png".toList⟩, ⟨"Orphan.png".toList⟩]).1.2.1 0 (by decide)).1)⟩

/-- Witness for the C9 theorem: existing content at a concrete slug is
kept, and a fresh slug gets an empty content file. -/
theorem createPage_spec_witness :
    ((createPage ⟨fun _ => false, fun p =>
        if p = ["a".toList, contentFileName] then some "keep".toList else none⟩
      ["a".toList]).files (["a".toList] ++ [contentFileName]) = some "keep".toList) ∧
    ((createPage ⟨fun _ => false, fun _ => none⟩ ["b".toList]).files
      (["b".toList] ++ [contentFileName]) = some []) :=
  ⟨createPage_spec.1 ⟨fun _ => false, fun p =>
      if p = ["a".toList, contentFileName] then some "keep".toList else none⟩
    ["a".toList] "keep".toList (by decide),
   createPage_spec.2.1 ⟨fun _ => false, fun _ => none⟩ ["b".toList] rfl rfl⟩

/-- Lemma: reading a just-written slot. -/
theorem getD_set_self {A : Type} (l : List A) (i : Nat) (a d : A)
    (h : i < l.length) : (l.set i a).getD i d = a := by
  simp [List.getD_eq_getElem?_getD, List.getElem?_set_self, h]

/-- Lemma: writing one slot leaves the others unchanged. -/
theorem getD_set_ne {A : Type} (l : List A) (i j : Nat) (a d : A)
    (h : i ≠ j) : (l.set i a).getD j d = l.getD j d := by
  simp [List.getD_eq_getElem?_getD, List.getElem?_set_ne h]

/-- Lemma: reading a replicated list. -/
theorem getD_replicate {A : Type} (n i : Nat) (a d : A) :
    (List.replicate n a).getD i d = if i < n then a else d := by
  simp only [List.getD_eq_getElem?_getD, List.getElem?_replicate]
  split <;> simp

/-- Lemma: reading past the end gives the default. -/
theorem getD_oob {A : Type} (l : List A) (i : Nat) (d : A)
    (h : l.length ≤ i) : l.getD i d = d := by
  simp [List.getD_eq_getElem?_getD, List.getElem?_eq_none h]

/-- Lemma: the scheduler invariant holds initially. -/
theorem schedInv_init (T : Type) (taskVal : Nat → T) (N C : Nat) :
    SchedInv taskVal N (min C N) (initState T N C) := by
  refine ⟨by simp [initState], by simp [initState], by simp [initState],
    by simp [initState], ?_, ?_, ?_, ?_⟩
  · intro w i h
    simp [initState, getD_replicate] at h
  · intro w1 w2 i h1 h2
    simp [initState, getD_replicate] at h1
  · intro i hiN
    simp [initState, getD_replicate, hiN]
  · intro i hiN hlt
    simp [initState] at hlt

/-- Lemma: one scheduler step preserves the invariant. -/
theorem schedInv_step {T : Type} (taskVal : Nat → T) (N W : Nat)
    (s : SchedState T) (w : Nat) (h : SchedInv taskVal N W s) :
    SchedInv taskVal N W (schedStep taskVal N s w) := by
  obtain ⟨hrl, hpl, hcl, hnle, hplt, huniq, hcnt, hres⟩ := h
  by_cases hw : w < s.pending.length
  · rcases hpw : s.pending.getD w none with _ | i
    · by_cases hn : s.nextIndex < N
      · -- claim step
        have heq : schedStep taskVal N s w =
            { s with nextIndex := s.nextIndex + 1,
                     pending := s.pending.set w (some s.nextIndex),
                     execCount := s.execCount.set s.nextIndex
                       (s.execCount.getD s.nextIndex 0 + 1) } := by
          simp only [schedStep, hpw, if_pos hw, if_pos hn]
        rw [heq]
        unfold SchedInv
        dsimp only
        have hnlen : s.nextIndex < s.execCount.length := by omega
        refine ⟨hrl, by simpa using hpl, by simpa using hcl, by omega,
          ?_, ?_, ?_, ?_⟩
        · intro w2 i2 h2
          by_cases hww : w = w2
          · subst hww
            rw [getD_set_self _ _ _ _ hw] at h2
            cases h2
            omega
          · rw [getD_set_ne _ _ _ _ _ hww] at h2
            have := hplt w2 i2 h2
            omega
        · intro w1 w2 i2 h1 h2
          by_cases hw1 : w = w1 <;> by_cases hw2 : w = w2
          · omega
          · subst hw1
            rw [getD_set_self _ _ _ _ hw] at h1
            rw [getD_set_ne _ _ _ _ _ hw2] at h2
            cases h1
            have := hplt w2 _ h2
            omega
          · subst hw2
            rw [getD_set_self _ _ _ _ hw] at h2
            rw [getD_set_ne _ _ _ _ _ hw1] at h1
            cases h2
            have := hplt w1 _ h1
            omega
          · rw [getD_set_ne _ _ _ _ _ hw1] at h1
            rw [getD_set_ne _ _ _ _ _ hw2] at h2
            exact huniq w1 w2 i2 h1 h2
        · intro i2 hi2
          by_cases hii : i2 = s.nextIndex
          · subst hii
            rw [getD_set_self _ _ _ _ hnlen, hcnt _ hi2]
            simp
          · rw [getD_set_ne _ _ _ _ _ (fun hc => hii hc.symm), hcnt i2 hi2]
            split <;> split <;> omega
        · intro i2 hi2 hlt2 hnone
          by_cases hii : i2 = s.nextIndex
          · subst hii
            exact absurd (getD_set_self s.pending w (some s.nextIndex) none hw) (hnone w)
          · refine hres i2 hi2 (by omega) ?_
            intro w2
            by_cases hww : w = w2
            · subst hww
              rw [hpw]
              simp
            · have := hnone w2
              rwa [getD_set_ne _ _ _ _ _ hww] at this
      · -- no work left: the state is unchanged
        have heq : schedStep taskVal N s w = s := by
          simp only [schedStep, hpw, if_pos hw, if_neg hn]
        rw [heq]
        exact ⟨hrl, hpl, hcl, hnle, hplt, huniq, hcnt, hres⟩
    · -- write step for the claimed index i
      have heq : schedStep taskVal N s w =
          { s with results := s.results.set i (some (taskVal i)),
                   pending := s.pending.set w none } := by
        simp only [schedStep, hpw, if_pos hw]
      rw [heq]
      unfold SchedInv
      dsimp only
      have hilt : i < s.nextIndex := hplt w i hpw
      have hireslen : i < s.results.length := by omega
      refine ⟨by simpa using hrl, by simpa using hpl, hcl,
        hnle, ?_, ?_, hcnt, ?_⟩
      · intro w2 i2 h2
        by_cases hww : w = w2
        · subst hww
          rw [getD_set_self _ _ _ _ hw] at h2
          cases h2
        · rw [getD_set_ne _ _ _ _ _ hww] at h2
          exact hplt w2 i2 h2
      · intro w1 w2 i2 h1 h2
        by_cases hw1 : w = w1
        · subst hw1
          rw [getD_set_self _ _ _ _ hw] at h1
          cases h1
        · by_cases hw2 : w = w2
          · subst hw2
            rw [getD_set_self _ _ _ _ hw] at h2
            cases h2
          · rw [getD_set_ne _ _ _ _ _ hw1] at h1
            rw [getD_set_ne _ _ _ _ _ hw2] at h2
            exact huniq w1 w2 i2 h1 h2
      · intro i2 hi2 hlt2 hnone
        by_cases hii : i2 = i
        · subst hii
          rw [getD_set_self _ _ _ _ hireslen]
        · rw [getD_set_ne _ _ _ _ _ (fun hc => hii hc.symm)]
          refine hres i2 hi2 hlt2 ?_
          intro w2
          by_cases hww : w = w2
          · subst hww
            rw [hpw]
            intro hc
            cases hc
            exact hii rfl
          · have := hnone w2
            rwa [getD_set_ne _ _ _ _ _ hww] at this
  · have heq : schedStep taskVal N s w = s := by
      simp only [schedStep, if_neg hw]
    rw [heq]
    exact ⟨hrl, hpl, hcl, hnle, hplt, huniq, hcnt, hres⟩

/-- Lemma: the invariant is preserved along any schedule. -/
theorem schedInv_run {T : Type} (taskVal : Nat → T) (N W : Nat)
    (schedule : List Nat) (s : SchedState T) (h : SchedInv taskVal N W s) :
    SchedInv taskVal N W (schedRun taskVal N schedule s) := by
  induction schedule generalizing s with
  | nil => exact h
  | cons w ws ih => exact ih _ (schedInv_step taskVal N W s w h)

/-- Lemma: in a terminal state of the scheduler, the output has one slot
per task, slot i holds the value of task i, and every task has been
started exactly once. -/
theorem schedRun_correct {T : Type} (taskVal : Nat → T) (N C : Nat)
    (schedule : List Nat)
    (hterm : SchedTerminal N (schedRun taskVal N schedule (initState T N C))) :
    (schedRun taskVal N schedule (initState T N C)).results.length = N ∧
    (∀ i, i < N →
      (schedRun taskVal N schedule (initState T N C)).results.getD i none =
        some (taskVal i)) ∧
    (∀ i, i < N →
      (schedRun taskVal N schedule (initState T N C)).execCount.getD i 0 = 1) := by
  have hinv := schedInv_run taskVal N (min C N) schedule (initState T N C)
    (schedInv_init T taskVal N C)
  obtain ⟨hrl, hpl, hcl, hnle, hplt, huniq, hcnt, hres⟩ := hinv
  obtain ⟨hnext, hpnone⟩ := hterm
  refine ⟨hrl, ?_, ?_⟩
  · intro i hi
    refine hres i hi (by omega) ?_
    intro w hcon
    by_cases hw : w < (schedRun taskVal N schedule (initState T N C)).pending.length
    · have hmem : (schedRun taskVal N schedule (initState T N C)).pending.getD w none ∈
          (schedRun taskVal N schedule (initState T N C)).pending := by
        rw [List.getD_eq_getElem _ _ hw]
        exact List.getElem_mem hw
      rw [hpnone _ hmem] at hcon
      cases hcon
    · rw [getD_oob _ _ _ (by omega)] at hcon
      cases hcon
  · intro i hi
    rw [hcnt i hi, if_pos (by omega)]

/-- Claim C4: for every task list, concurrency limit of at least one and
schedule under which all workers finish, the scheduler records the value
of task i at output position i, the output has length N, every task has
been started exactly once, and the number of workers spun up is the
minimum of the concurrency limit and the task count. -/
theorem runWithConcurrency_spec {T : Type} (taskVal : Nat → T) (N C : Nat)
    (hC : 1 ≤ C) (schedule : List Nat)
    (hterm : SchedTerminal N (schedRun taskVal N schedule (initState T N C))) :
    (schedRun taskVal N schedule (initState T N C)).results.length = N ∧
    (∀ i, i < N →
      (schedRun taskVal N schedule (initState T N C)).results.getD i none =
        some (taskVal i)) ∧
    (∀ i, i < N →
      (schedRun taskVal N schedule (initState T N C)).execCount.getD i 0 = 1) ∧
    (initState T N C).pending.length = min C N :=
  ⟨(schedRun_correct taskVal N C schedule hterm).1,
   (schedRun_correct taskVal N C schedule hterm).2.1,
   (schedRun_correct taskVal N C schedule hterm).2.2,
   by simp [initState]⟩

/-- Witness for the C4 theorem: three tasks under concurrency two and an
alternating schedule in which both workers interleave claims and
completions. -/
theorem runWithConcurrency_spec_witness :
    1 ≤ 2 ∧
    SchedTerminal 3 (schedRun (fun i => i * 10) 3 [0, 1, 0, 1, 0, 0]
      (initState Nat 3 2)) ∧
    ((schedRun (fun i => i * 10) 3 [0, 1, 0, 1, 0, 0]
        (initState Nat 3 2)).results.length = 3 ∧
     (∀ i, i < 3 →
       (schedRun (fun i => i * 10) 3 [0, 1, 0, 1, 0, 0]
         (initState Nat 3 2)).results.getD i none = some (i * 10)) ∧
     (∀ i, i < 3 →
       (schedRun (fun i => i * 10) 3 [0, 1, 0, 1, 0, 0]
         (initState Nat 3 2)).execCount.getD i 0 = 1) ∧
     (initState Nat 3 2).pending.length = min 2 3) :=
  ⟨by decide, by decide,
   runWithConcurrency_spec (fun i => i * 10) 3 2 (by decide) [0, 1, 0, 1, 0, 0]
     (by decide)⟩

/-- Lemma: every result the worker returns normally carries the name and
slug of its unit. -/
theorem processGroup_ok_fields (g : FileGroup) (env : UnitEnv) (r : ImportResult)
    (h : processGroup g env = .ok r) : r.name = g.name ∧ r.slug = g.slug := by
  unfold processGroup at h
  split at h
  · cases h
    exact ⟨rfl, rfl⟩
  · split at h
    · cases h
    · split at h
      · cases h
      · split at h
        · cases h
        · cases h
          exact ⟨rfl, rfl⟩

/-- Lemma: the guarded task returns the worker result on normal return
and the synthesized failure result on a thrown error. -/
theorem runTask_eq (g : FileGroup) (env : UnitEnv) :
    (∀ msg, processGroup g env = .error msg →
      runTask g env = ⟨g.name, g.slug, false, some msg⟩) ∧
    (∀ r, processGroup g env = .ok r → runTask g env = r) := by
  constructor
  · intro msg h
    unfold runTask
    rw [h]
  · intro r h
    unfold runTask
    rw [h]

/-- Lemma: the guarded task always reports the name and slug of its
unit. -/
theorem runTask_fields (g : FileGroup) (env : UnitEnv) :
    (runTask g env).name = g.name ∧ (runTask g env).slug = g.slug := by
  unfold runTask
  split
  · rename_i r h
    exact processGroup_ok_fields g env r h
  · exact ⟨rfl, rfl⟩

/-- Claim C1: for every accepted upload and any schedule under which the
batch completes, the orchestrator reports exactly one result per unit of
the grouper, at the unit's original index, carrying the unit's name and
slug; a unit whose processing throws is reported as that unit's failure
result with the thrown message as its error, and every unit's result is
a function of that unit's own group and oracle alone, so one unit's
failure never affects another's result. -/
theorem POST_results_spec (files : List UFile) (key : List Char)
    (envs : Nat → UnitEnv) (schedule : List Nat)
    (hfiles : files ≠ [])
    (hterm : SchedTerminal (groupFiles files).1.length
      (importSchedState files envs schedule)) :
    POST files (some key) envs schedule =
      .report (importSchedState files envs schedule).results (groupFiles files).2 ∧
    (importSchedState files envs schedule).results.length =
      (groupFiles files).1.length ∧
    (∀ i, i < (groupFiles files).1.length →
      (importSchedState files envs schedule).results.getD i none =
        some (runTask ((groupFiles files).1.getD i default) (envs i)) ∧
      (runTask ((groupFiles files).1.getD i default) (envs i)).name =
        ((groupFiles files).1.getD i default).name ∧
      (runTask ((groupFiles files).1.getD i default) (envs i)).slug =
        ((groupFiles files).1.getD i default).slug ∧
      (∀ msg, processGroup ((groupFiles files).1.getD i default) (envs i) =
          .error msg →
        runTask ((groupFiles files).1.getD i default) (envs i) =
          ⟨((groupFiles files).1.getD i default).name,
           ((groupFiles files).1.getD i default).slug, false, some msg⟩) ∧
      (∀ r, processGroup ((groupFiles files).1.getD i default) (envs i) = .ok r →
        runTask ((groupFiles files).1.getD i default) (envs i) = r)) := by
  have hsched := schedRun_correct (importTasks files envs)
    (groupFiles files).1.length CONCURRENCY schedule hterm
  refine ⟨?_, hsched.1, ?_⟩
  · rw [POST, if_neg (by simp [hfiles])]
  · intro i hi
    exact ⟨hsched.2.1 i hi,
      (runTask_fields _ _).1, (runTask_fields _ _).2,
      (runTask_eq _ _).1, (runTask_eq _ _).2⟩

/-- Witness for the C1 theorem: one HTML file whose unit fails with a
thrown storage error still yields a report with exactly its own failure
result. -/
theorem POST_results_spec_witness :
    ([⟨"A.html".toList⟩] : List UFile) ≠ [] ∧
    SchedTerminal (groupFiles [⟨"A.html".toList⟩]).1.length
      (importSchedState [⟨"A.html".toList⟩]
        (fun _ => ⟨fun _ => .ok ⟨[ContentBlock.text "md".toList]⟩,
          .error "disk full".toList⟩) [0, 0]) ∧
    (POST [⟨"A.html".toList⟩] (some "k".toList)
        (fun _ => ⟨fun _ => .ok ⟨[ContentBlock.text "md".toList]⟩,
          .error "disk full".toList⟩) [0, 0] =
      .report (importSchedState [⟨"A.html".toList⟩]
        (fun _ => ⟨fun _ => .ok ⟨[ContentBlock.text "md".toList]⟩,
          .error "disk full".toList⟩) [0, 0]).results
        (groupFiles [⟨"A.html".toList⟩]).2) :=
  ⟨by decide, by decide,
   (POST_results_spec [⟨"A.html".toList⟩] "k".toList
      (fun _ => ⟨fun _ => .ok ⟨[ContentBlock.text "md".toList]⟩,
        .error "disk full".toList⟩) [0, 0] (by decide) (by decide)).1⟩

end Forum
